import Mathlib

/-!
# Verification of `framework/bin/replace_code.py`

Shallow embedding of the patch-application utility: the structural (AST)
function locator, the textual (regex) fallback locator, the indentation-based
end-boundary resolver, the indentation-preserving rewriter, the legacy
whole-snippet replacer, and the instruction dispatcher.

Modelling conventions:
* Python strings are Lean `String`s; all positions are code-point counts
  (Python `len`/slicing also count code points).
* Python whitespace (`str.strip`, `\s` in the regexes) is modelled by the
  ASCII whitespace set, which covers every document appearing in the claims.
* `ast.parse` is an external library call; it is modelled as an explicit
  parameter `parsed : Option Py` of the locator: `none` models a
  `SyntaxError` (which the source catches and turns into the regex
  fallback), `some tree` models a successful parse returning `tree`.
* `ast.walk` is breadth-first (CPython implements it with a `deque`:
  pop from the left, extend on the right); `walkFuel` reproduces that
  queue, with a fuel argument bounding the number of yielded nodes so the
  recursion is structural.  The fuel `pyCount t` equals the node count of
  `t`, so the fuel never runs out.
* File I/O is factored out: `apply_function_change_pure` returns
  `some newContent` exactly when the source would write the file, `none`
  exactly when it prints a warning and returns `False` without writing.
-/

namespace ReplaceCode

/-! ## Python string primitives -/

/-- ASCII whitespace, the characters Python's `str.strip`/`str.lstrip` and
the regex class `\s` treat as whitespace on ASCII text. -/
def pyIsSpace (c : Char) : Bool :=
  c = ' ' || c = '\t' || c = '\n' || c = '\r' || c = '\x0b' || c = '\x0c'

/-- `line.strip() == ""`: every character is whitespace. -/
def isBlankLine (line : String) : Bool :=
  (line.toList.dropWhile pyIsSpace).isEmpty

/-- `line.strip().startswith("#")`: the first non-whitespace character is
the comment marker. -/
def isCommentLine (line : String) : Bool :=
  match line.toList.dropWhile pyIsSpace with
  | '#' :: _ => true
  | _ => false

/-- `len(line) - len(line.lstrip())`: the number of leading whitespace
characters of `line`. -/
def pyIndent (line : String) : Nat :=
  (line.toList.takeWhile pyIsSpace).length

/-- `line.lstrip()`. -/
def pyLStrip (line : String) : String :=
  String.mk (line.toList.dropWhile pyIsSpace)

def splitlinesAux : List Char → List Char → List String
  | [], acc => if acc.isEmpty then [] else [String.mk acc.reverse]
  | c :: cs, acc =>
      if c = '\n' then String.mk (acc.reverse ++ ['\n']) :: splitlinesAux cs []
      else splitlinesAux cs (c :: acc)

/-- `content.splitlines(True)`: split into lines, each keeping its
terminating newline (the documents under study use `\n` terminators). -/
def splitlinesKeepends (content : String) : List String :=
  splitlinesAux content.toList []

/-- Remove one trailing newline, if present. -/
def stripNL (line : String) : String :=
  match line.toList.reverse with
  | '\n' :: rest => String.mk rest.reverse
  | _ => line

/-- `content.splitlines()`: like `splitlines(True)` with the terminators
removed. -/
def splitlinesNoEnds (content : String) : List String :=
  (splitlinesKeepends content).map stripNL

/-- `sum(len(lines[i]) for i in range(k))`: the code-point offset of the
start of line `k`. -/
def sumLens (lines : List String) (k : Nat) : Nat :=
  ((lines.take k).map String.length).sum

/-- `content[:s] + repl + content[e:]` (code-point slicing). -/
def splice (content : String) (s e : Nat) (repl : String) : String :=
  String.mk (content.toList.take s ++ repl.toList ++ content.toList.drop e)

/-! ## Boundary resolver

The source contains this loop twice, verbatim (in `find_function_in_code`
and in `find_function_end_regex`, and once more inline for the class end in
`find_function_regex`); it is embedded once. -/

/-- One step of the end-boundary loop over the remaining lines, carrying the
absolute index `i` of the head line.  Blank and comment lines are skipped;
the loop stops at the first other line whose indentation is `≤ w`. -/
def endScan (w : Nat) : List String → Nat → Nat
  | [], i => i
  | l :: ls, i =>
      if isBlankLine l || isCommentLine l then endScan w ls (i + 1)
      else if pyIndent l ≤ w then i
      else endScan w ls (i + 1)

/-- The `end_line` loop: starting at `start_line + 1`, the index of the
first non-blank, non-comment line with indentation `≤ w`, or the number of
lines if none exists. -/
def findEndLine (lines : List String) (start_line w : Nat) : Nat :=
  endScan w (lines.drop (start_line + 1)) (start_line + 1)

/-- The terminating-line test of the boundary loop: a line that is neither
blank nor a comment and whose leading-whitespace count is at most `w`. -/
def isStopLine (line : String) (w : Nat) : Bool :=
  !(isBlankLine line) && !(isCommentLine line) && decide (pyIndent line ≤ w)

/-- `find_function_end_regex(lines, start_line, function_indent)`. -/
def find_function_end_regex (lines : List String) (start_line function_indent : Nat) :
    Nat × Nat × Nat :=
  (sumLens lines start_line,
   sumLens lines (findEndLine lines start_line function_indent),
   function_indent)

/-! ## Textual locator (regex fallback) -/

/-- `re.match(r"^(\s*)def\s+<fn>\s*\(", line)` for an identifier `fn`
(`re.escape` makes the name literal): returns the length of the captured
leading whitespace when the line matches. -/
def matchDefHeader (line : String) (fn : String) : Option Nat :=
  let cs := line.toList
  let ind := cs.takeWhile pyIsSpace
  let r1 := cs.dropWhile pyIsSpace
  if ['d', 'e', 'f'].isPrefixOf r1 then
    let r2 := r1.drop 3
    if (r2.takeWhile pyIsSpace).length = 0 then none
    else
      let r3 := r2.dropWhile pyIsSpace
      if fn.toList.isPrefixOf r3 then
        match (r3.drop fn.toList.length).dropWhile pyIsSpace with
        | '(' :: _ => some ind.length
        | _ => none
      else none
  else none

/-- `re.match(r"^(\s*)class\s+<cn>\s*[:\(]", line)` for an identifier `cn`:
returns the length of the captured leading whitespace when the line
matches. -/
def matchClassHeader (line : String) (cn : String) : Option Nat :=
  let cs := line.toList
  let ind := cs.takeWhile pyIsSpace
  let r1 := cs.dropWhile pyIsSpace
  if ['c', 'l', 'a', 's', 's'].isPrefixOf r1 then
    let r2 := r1.drop 5
    if (r2.takeWhile pyIsSpace).length = 0 then none
    else
      let r3 := r2.dropWhile pyIsSpace
      if cn.toList.isPrefixOf r3 then
        match (r3.drop cn.toList.length).dropWhile pyIsSpace with
        | ':' :: _ => some ind.length
        | '(' :: _ => some ind.length
        | _ => none
      else none
  else none

/-- `for i, line in enumerate(lines): if p(line): return (i, result)`,
carrying the absolute index of the head line. -/
def scanLines (p : String → Option Nat) : List String → Nat → Option (Nat × Nat)
  | [], _ => none
  | l :: ls, i =>
      match p l with
      | some w => some (i, w)
      | none => scanLines p ls (i + 1)

/-- The window scan of `find_function_regex` (class case): over the given
slice of lines, find the first `def <fn>(` header whose indentation is
strictly greater than `cind`; headers with indentation `≤ cind` are skipped
(the source falls through without breaking). -/
def defScan (fn : String) (cind : Nat) : List String → Nat → Option (Nat × Nat)
  | [], _ => none
  | l :: ls, i =>
      match matchDefHeader l fn with
      | some w => if cind < w then some (i, w) else defScan fn cind ls (i + 1)
      | none => defScan fn cind ls (i + 1)

/-- `find_function_regex(content, function_name, class_name)`. -/
def find_function_regex (content fn : String) (cls : Option String) :
    Option (Nat × Nat × Nat) :=
  let lines := splitlinesKeepends content
  match cls with
  | some cn =>
      match scanLines (fun l => matchClassHeader l cn) lines 0 with
      | none => none
      | some (class_start, class_indent) =>
          let class_end := findEndLine lines class_start class_indent
          match defScan fn class_indent
              ((lines.drop (class_start + 1)).take (class_end - (class_start + 1)))
              (class_start + 1) with
          | none => none
          | some (i, w) => some (find_function_end_regex lines i w)
  | none =>
      match scanLines (fun l => matchDefHeader l fn) lines 0 with
      | none => none
      | some (i, w) => some (find_function_end_regex lines i w)

/-! ## Structural locator (`ast` path) -/

/-- The fragment of the Python AST the locator inspects: `Module` (no line
number), `ClassDef` and `FunctionDef` (line number and name), and `other`
for every remaining node kind (statements, expressions); only definition
nodes relevant to the search need children in the model, so non-definition
nodes whose descendants contain no definitions may be modelled as leaves. -/
inductive Py where
  | module : List Py → Py
  | classDef : Nat → String → List Py → Py
  | functionDef : Nat → String → List Py → Py
  | other : Nat → List Py → Py

mutual

/-- Total number of nodes of a tree, used as walk fuel. -/
def pyCount : Py → Nat
  | .module b => 1 + pyCountL b
  | .classDef _ _ b => 1 + pyCountL b
  | .functionDef _ _ b => 1 + pyCountL b
  | .other _ b => 1 + pyCountL b

def pyCountL : List Py → Nat
  | [] => 0
  | n :: ns => pyCount n + pyCountL ns

end

/-- `ast.iter_child_nodes`. -/
def childrenOf : Py → List Py
  | .module b => b
  | .classDef _ _ b => b
  | .functionDef _ _ b => b
  | .other _ b => b

/-- `node.lineno` (1-based); the module node carries none and is never the
search target, it is given 0. -/
def linenoOf : Py → Nat
  | .module _ => 0
  | .classDef l _ _ => l
  | .functionDef l _ _ => l
  | .other l _ => l

def isClassNamed (n : Py) (cn : String) : Bool :=
  match n with
  | .classDef _ name _ => name = cn
  | _ => false

def isFuncNamed (n : Py) (fn : String) : Bool :=
  match n with
  | .functionDef _ name _ => name = fn
  | _ => false

/-- The breadth-first queue of `ast.walk`: pop the head, yield it, push its
children at the back.  The fuel bounds the number of yielded nodes; every
step consumes one node of the finite tree, so any fuel at least the total
node count yields the complete walk. -/
def walkFuel : Nat → List Py → List Py
  | 0, _ => []
  | _ + 1, [] => []
  | fuel + 1, n :: rest => n :: walkFuel fuel (rest ++ childrenOf n)

/-- `ast.walk(t)`: breadth-first traversal.  The fuel `pyCount t` is the
exact number of nodes of `t`, so the walk is complete. -/
def ast_walk (t : Py) : List Py :=
  walkFuel (pyCount t) [t]

/-- The node-search loops of `find_function_in_code`: with a class name,
the first `ClassDef` of that name in walk order, then the first
`FunctionDef` of the target name inside its walk (if the named class is
found but lacks the function, the result is `none` — the loop breaks
without looking at later classes); without a class name, the first
`FunctionDef` of the target name in walk order of the whole tree. -/
def findTargetNode (tree : Py) (fn : String) (cls : Option String) : Option Py :=
  match cls with
  | some cn =>
      match (ast_walk tree).find? (fun n => isClassNamed n cn) with
      | none => none
      | some cnode => (ast_walk cnode).find? (fun n => isFuncNamed n fn)
  | none => (ast_walk tree).find? (fun n => isFuncNamed n fn)

/-- `find_function_in_code(content, function_name, class_name)`.
`parsed = none` models `ast.parse` raising `SyntaxError` (the `except`
branch falls back to the regex locator); `parsed = some tree` models a
successful parse.  `ast` guarantees `1 ≤ lineno ≤ number of lines` for
nodes of a successful parse, so the `getD` default is never used on
faithful inputs. -/
def find_function_in_code (parsed : Option Py) (content fn : String)
    (cls : Option String) : Option (Nat × Nat × Nat) :=
  match parsed with
  | none => find_function_regex content fn cls
  | some tree =>
      match findTargetNode tree fn cls with
      | none => none
      | some node =>
          let lines := splitlinesKeepends content
          let start_line := linenoOf node - 1
          let function_indent := pyIndent (lines.getD start_line "")
          let end_line := findEndLine lines start_line function_indent
          some (sumLens lines start_line, sumLens lines end_line, function_indent)

/-! ## Rewriter -/

/-- The replacement-formatting block of `apply_function_change`: the first
line is stripped of its leading whitespace and prefixed with
`function_indent` spaces; each later non-blank line keeps its own leading
whitespace and is prefixed with `function_indent` further spaces; blank
lines pass through; lines are joined with `"\n"` and a trailing newline is
ensured. -/
def formatReplacement (function_indent : Nat) (new_code : String) : String :=
  let indent_str := String.mk (List.replicate function_indent ' ')
  let new_lines := splitlinesNoEnds new_code
  let indented := new_lines.enum.map (fun p =>
    if p.1 = 0 then indent_str ++ pyLStrip p.2
    else if !(isBlankLine p.2) then indent_str ++ p.2
    else p.2)
  let formatted := String.intercalate "\n" indented
  if formatted.toList.getLast? = some '\n' then formatted else formatted ++ "\n"

/-- `apply_function_change(file_path, function_name, new_code, class_name)`
with the file I/O factored out: the input file content is a parameter and
the result is `some newContent` exactly when the source writes the file,
`none` exactly when it reports the function as not found and returns
`False`. -/
def apply_function_change_pure (parsed : Option Py) (content fn new_code : String)
    (cls : Option String) : Option String :=
  match find_function_in_code parsed content fn cls with
  | none => none
  | some (s, e, w) => some (splice content s e (formatReplacement w new_code))

/-- The content of the target file after `apply_function_change`: unchanged
when the operation fails, the spliced document when it succeeds. -/
def fileAfter (parsed : Option Py) (content fn new_code : String)
    (cls : Option String) : String :=
  (apply_function_change_pure parsed content fn new_code cls).getD content

/-! ## Legacy snippet replacer -/

/-- `old in content` (Python substring containment; the empty string is
contained in everything). -/
def containsLoop (pat : List Char) : List Char → Bool
  | [] => pat.isEmpty
  | c :: cs => pat.isPrefixOf (c :: cs) || containsLoop pat cs

def pyContains (content old : String) : Bool :=
  containsLoop old.toList content.toList

/-- Scanner for `str.replace` with a nonempty pattern: at each position,
if the pattern starts here, emit the replacement and skip the rest of the
occurrence (tracked by the skip counter); otherwise copy one character. -/
def replAux (pat new : List Char) (skip : Nat) : List Char → List Char
  | [] => []
  | c :: cs =>
      match skip with
      | k + 1 => replAux pat new k cs
      | 0 =>
          if pat.isPrefixOf (c :: cs) then new ++ replAux pat new (pat.length - 1) cs
          else c :: replAux pat new 0 cs

/-- `content.replace(old, new)`: every non-overlapping occurrence,
scanning left to right; with an empty pattern, Python inserts `new`
before every character and at the end. -/
def pyReplace (content old new : String) : String :=
  if old.toList.isEmpty then
    String.mk (new.toList ++ (content.toList.map (fun c => c :: new.toList)).flatten)
  else
    String.mk (replAux old.toList new.toList 0 content.toList)

/-- `apply_change(file_path, old_code, new_code)` with the file I/O
factored out: `none` exactly when `old_code not in content` (warning
printed, no write), otherwise the rewritten content that is written
back. -/
def apply_change_pure (content old new : String) : Option String :=
  if pyContains content old then some (pyReplace content old new) else none

/-! ## Instruction dispatcher (`main`) -/

structure Instruction where
  project : String
  bug : String
  file : String
  change : List String
  changes_function_class_names : List String
deriving DecidableEq

/-- ASCII `str.lower`, covering the project identifiers in use. -/
def pyLower (s : String) : String :=
  String.mk (s.toList.map (fun c => if 'A' ≤ c && c ≤ 'Z' then Char.ofNat (c.toNat + 32) else c))

/-- The record filter of `main`:
`instruction["project"].lower() == project.lower() and instruction["bug"] == str(bug)`. -/
def matchesInst (inst : Instruction) (project bug : String) : Bool :=
  pyLower inst.project = pyLower project && inst.bug = bug

/-- The selection loop of `main`: iterate over all records and keep
(re-)assigning `selected_instruction` on every match, without breaking. -/
def select_instruction (instructions : List Instruction) (project bug : String) :
    Option Instruction :=
  instructions.foldl
    (fun acc inst => if matchesInst inst project bug then some inst else acc) none

/-- The call list of the dispatch loop of `main`: for each index into
`change`, the triple of arguments `(function_name, new_code, class_name)`
passed to `apply_function_change` — the name taken verbatim from
`changes_function_class_names[index]`, the code from `change[index]`, and
the class-name parameter left at its default `None`. -/
def main_calls (inst : Instruction) : List (String × String × Option String) :=
  (List.range inst.change.length).map
    (fun i => (inst.changes_function_class_names.getD i "",
               inst.change.getD i "",
               (none : Option String)))

end ReplaceCode


namespace ReplaceCode

/-! ## Concrete fixtures

Each `treeX` is the `ast.parse` tree of the corresponding `docX` restricted
to the node kinds the locator inspects (`lineno`s are 1-based, as in
`ast`); non-definition statements are modelled as `other` leaves since
their descendants contain no definition nodes. -/

/-- The scenario document of the spec:
`class Foo:` / `    def bar(self): return 1` / blank / `    def baz(self): return 2`. -/
def docFoo : String :=
  "class Foo:\n    def bar(self):\n        return 1\n\n    def baz(self):\n        return 2\n"

def treeFoo : Py :=
  .module [.classDef 1 "Foo"
    [.functionDef 2 "bar" [.other 3 []], .functionDef 5 "baz" [.other 6 []]]]

/-- The replacement text of the scenario. -/
def replBar : String := "def bar(self):\n    return 42\n"

/-- A method `f` inside `class A` (lines 1-3) followed by a module-level
function `f` (lines 4-5). -/
def doc3 : String := "class A:\n    def f(self):\n        return 1\ndef f():\n    return 2\n"

def tree3 : Py :=
  .module [.classDef 1 "A" [.functionDef 2 "f" [.other 3 []]],
           .functionDef 4 "f" [.other 5 []]]

/-- Two classes, each with a method `m`. -/
def doc5 : String :=
  "class A:\n    def m(self):\n        return 1\nclass B:\n    def m(self):\n        return 2\n"

def tree5 : Py :=
  .module [.classDef 1 "A" [.functionDef 2 "m" [.other 3 []]],
           .classDef 4 "B" [.functionDef 5 "m" [.other 6 []]]]

/-- A single uniquely named method followed by an ordinary statement —
syntactically valid. -/
def docV : String := "class Foo:\n    def bar(self):\n        return 1\nx = 1\n"

def treeV : Py :=
  .module [.classDef 1 "Foo" [.functionDef 2 "bar" [.other 3 []]], .other 4 []]

/-- The same document with the trailing statement replaced by a line with a
deliberate syntax error, so that its structural parse fails. -/
def docI : String := "class Foo:\n    def bar(self):\n        return 1\ndef broken(:\n"

/-- `doc3` followed by a deliberate syntax-error line, so that its
structural parse fails. -/
def doc7inv : String :=
  "class A:\n    def f(self):\n        return 1\ndef f():\n    return 2\ndef broken(:\n"

/-! ## Claims -/

/-- **C1** (counterexample).  On the spec scenario — locate `bar` in class
`Foo` inside `docFoo` and replace it with `replBar` — the code produces a
document in which the blank line between the two methods has been
*consumed*: the end-boundary loop includes trailing blank lines in the
replaced span and the formatted replacement does not restore them.  The
claimed output, which keeps the blank line, is therefore not produced. -/
theorem c1_scenario_counterexample :
    apply_function_change_pure (some treeFoo) docFoo "bar" replBar (some "Foo") =
      some "class Foo:\n    def bar(self):\n        return 42\n    def baz(self):\n        return 2\n" ∧
    apply_function_change_pure (some treeFoo) docFoo "bar" replBar (some "Foo") ≠
      some "class Foo:\n    def bar(self):\n        return 42\n\n    def baz(self):\n        return 2\n" := by
  constructor
  · decide
  · decide

/-- **C1** (amended).  Locating `bar` in class `Foo` of `docFoo` yields the
span `[11, 48)` (covering the `def bar` line, its body line, and the
following blank line) with indent 4, and the rewrite produces the document
without the blank line between the two methods: the rewriter strips the
first replacement line's leading whitespace, prefixes it with 4 spaces,
prefixes the subsequent non-blank line with 4 additional spaces, joins with
single newlines and ensures a trailing newline. -/
theorem c1_scenario_amended :
    find_function_in_code (some treeFoo) docFoo "bar" (some "Foo") = some (11, 48, 4) ∧
    formatReplacement 4 replBar = "    def bar(self):\n        return 42\n" ∧
    apply_function_change_pure (some treeFoo) docFoo "bar" replBar (some "Foo") =
      some "class Foo:\n    def bar(self):\n        return 42\n    def baz(self):\n        return 2\n" := by
  refine ⟨by decide, by decide, by decide⟩

/-- **C3** (counterexample).  `doc3` contains a method `f` of class `A`
(line 2, document-first) and a module-level `f` (line 4).  The span of the
document-first definition would be `(9, 43, 4)`, but the structural locator
returns `(43, 65, 0)` — the module-level one — because `ast.walk` is a
breadth-first traversal, not a pre-order one: all module-level statements
are visited before any class body. -/
theorem c3_walk_order_counterexample :
    (sumLens (splitlinesKeepends doc3) 1,
     sumLens (splitlinesKeepends doc3)
       (findEndLine (splitlinesKeepends doc3) 1
         (pyIndent ((splitlinesKeepends doc3).getD 1 ""))),
     pyIndent ((splitlinesKeepends doc3).getD 1 "")) = (9, 43, 4) ∧
    find_function_in_code (some tree3) doc3 "f" none = some (43, 65, 0) ∧
    find_function_in_code (some tree3) doc3 "f" none ≠ some (9, 43, 4) := by
  refine ⟨by decide, by decide, by decide⟩

/-- **C3** (amended).  Without a class name the structural locator returns
the first matching `FunctionDef` in `ast.walk`'s breadth-first order, so a
shallower same-named definition later in the document wins over a deeper,
earlier one: on `doc3` the selected node is the module-level `f` at line 4
and the returned span is `(43, 65, 0)`, not the span of the method at
line 2. -/
theorem c3_walk_order_amended :
    Option.map linenoOf (findTargetNode tree3 "f" none) = some 4 ∧
    find_function_in_code (some tree3) doc3 "f" none = some (43, 65, 0) := by
  refine ⟨by decide, by decide⟩

/-- **C4**.  A failed structural parse (modelled by `parsed = none`, the
`SyntaxError` branch) makes the locator return exactly what the textual
locator returns on the same document and names; when that fallback also
finds nothing, the overall function-replacement result is failure
(`none`): no crash, no write. -/
theorem c4_parse_failure_fallback (content fn new_code : String) (cls : Option String) :
    find_function_in_code none content fn cls = find_function_regex content fn cls ∧
    (find_function_regex content fn cls = none →
      apply_function_change_pure none content fn new_code cls = none ∧
      fileAfter none content fn new_code cls = content) := by
  refine ⟨rfl, fun h => ?_⟩
  constructor
  · simp [apply_function_change_pure, find_function_in_code, h]
  · simp [fileAfter, apply_function_change_pure, find_function_in_code, h]

theorem c4_parse_failure_fallback_witness :
    find_function_regex "def broken(:\n" "g" none = none ∧
    apply_function_change_pure none "def broken(:\n" "g" "def g():\n    return 0\n" none = none :=
  ⟨by decide,
   ((c4_parse_failure_fallback "def broken(:\n" "g" "def g():\n    return 0\n" none).2
     (by decide)).1⟩

/-- **C7** (counterexample).  `doc7inv` fails structural parsing (due to
its final line) and both its definitions of `f` are well-formed; its
syntactically valid version is `doc3`.  The textual locator on `doc7inv`
returns start offset 9 and indent 4 (the document-first method `f`), while
the structural locator on `doc3` returns start offset 43 and indent 0 (the
module-level `f`, first in breadth-first walk order): the two locators do
not agree on `start_offset`/`indent_width`. -/
theorem c7_fallback_divergence :
    find_function_in_code none doc7inv "f" none = some (9, 43, 4) ∧
    find_function_in_code (some tree3) doc3 "f" none = some (43, 65, 0) ∧
    Option.map (fun r : Nat × Nat × Nat => (r.1, r.2.2))
        (find_function_in_code none doc7inv "f" none) ≠
      Option.map (fun r : Nat × Nat × Nat => (r.1, r.2.2))
        (find_function_in_code (some tree3) doc3 "f" none) := by
  refine ⟨by decide, by decide, by decide⟩

/-- Inversion of the line scan: a hit `(j, r)` means the predicate accepts
the line at absolute index `j` (with result `r`), which lies in range. -/
theorem scanLines_some (p : String → Option Nat) :
    ∀ (L : List String) (i j r : Nat), scanLines p L i = some (j, r) →
      i ≤ j ∧ j - i < L.length ∧ p (L.getD (j - i) "") = some r := by
  intro L
  induction L with
  | nil => intro i j r h; simp [scanLines] at h
  | cons l ls ih =>
      intro i j r h
      cases hm : p l with
      | some v =>
          rw [scanLines, hm] at h
          dsimp only at h
          rw [Option.some.injEq, Prod.mk.injEq] at h
          obtain ⟨hj, hv⟩ := h
          have h0 : j - i = 0 := by omega
          refine ⟨by omega, by rw [List.length_cons]; omega, ?_⟩
          rw [h0, List.getD_cons_zero, hm, hv]
      | none =>
          rw [scanLines, hm] at h
          dsimp only at h
          have hrec := ih (i + 1) j r h
          obtain ⟨h1, h2, h3⟩ := hrec
          refine ⟨by omega, by rw [List.length_cons]; omega, ?_⟩
          have hidx : j - i = (j - (i + 1)) + 1 := by omega
          rw [hidx, List.getD_cons_succ]
          exact h3

/-- The indentation the def-header regex captures (`(\s*)`, the group
length) is exactly the line's leading-whitespace count — the value the
structural locator computes for the same line. -/
theorem matchDefHeader_indent (line fn : String) (w : Nat)
    (h : matchDefHeader line fn = some w) : pyIndent line = w := by
  unfold matchDefHeader at h
  dsimp only at h
  split at h
  · split at h
    · exact absurd h (by simp)
    · split at h
      · split at h
        · rw [Option.some.injEq] at h
          exact h
        · exact absurd h (by simp)
      · exact absurd h (by simp)
  · exact absurd h (by simp)

/-- **C7** (amended).  The two locators agree whenever they select the
same definition line.  General part: if the structural locator's target
node (no class name) starts at the very line that is the textual scan's
first def-pattern match, the two locators return the *identical*
`(start_offset, end_offset, indent_width)` triple — the regex's captured
indentation provably equals the line's leading-whitespace count
(`matchDefHeader_indent`) and the end boundary is the same loop.
Concrete part: in the fallback scenario this agreement holds for `docI`
(parse failure, its unique `bar` the first pattern match) against its
valid version `docV`: both locators return `(11, 47, 4)`.  In general the
locators may select different lines and then disagree (breadth-first walk
order versus first pattern-matching line in document order). -/
theorem c7_fallback_agreement_same_line :
    (∀ (tree : Py) (content fn : String) (node : Py) (d w : Nat),
        findTargetNode tree fn none = some node →
        scanLines (fun l => matchDefHeader l fn) (splitlinesKeepends content) 0 =
          some (d, w) →
        linenoOf node = d + 1 →
        find_function_in_code (some tree) content fn none =
          find_function_regex content fn none) ∧
    find_function_in_code none docI "bar" none = some (11, 47, 4) ∧
    find_function_in_code (some treeV) docV "bar" none = some (11, 47, 4) := by
  refine ⟨?_, by decide, by decide⟩
  intro tree content fn node d w hfind hscan hline
  obtain ⟨-, -, hmd⟩ :=
    scanLines_some (fun l => matchDefHeader l fn) (splitlinesKeepends content) 0 d w hscan
  rw [Nat.sub_zero] at hmd
  have hind : pyIndent ((splitlinesKeepends content).getD d "") = w :=
    matchDefHeader_indent _ fn w hmd
  have hd : linenoOf node - 1 = d := by omega
  simp only [find_function_in_code, find_function_regex, hfind, hscan]
  rw [hd, hind]
  rfl

theorem c7_fallback_agreement_same_line_witness :
    findTargetNode treeV "bar" none = some (.functionDef 2 "bar" [.other 3 []]) ∧
    scanLines (fun l => matchDefHeader l "bar") (splitlinesKeepends docV) 0 = some (1, 4) ∧
    linenoOf (.functionDef 2 "bar" [.other 3 []]) = 1 + 1 ∧
    find_function_in_code (some treeV) docV "bar" none =
      find_function_regex docV "bar" none :=
  ⟨rfl, by decide, rfl,
   c7_fallback_agreement_same_line.1 treeV docV "bar"
     (.functionDef 2 "bar" [.other 3 []]) 1 4 rfl (by decide) rfl⟩

end ReplaceCode

namespace ReplaceCode

/-- **C6**.  When the target function name is absent by both locators —
the structural search finds no node on any successful parse and the
textual locator finds nothing either — the function-replacement operation
fails, so no formatted replacement is spliced and the file content stays
byte-identical. -/
theorem c6_absent_function_no_write (parsed : Option Py) (content fn new_code : String)
    (cls : Option String)
    (hs : ∀ t, parsed = some t → findTargetNode t fn cls = none)
    (ht : find_function_regex content fn cls = none) :
    apply_function_change_pure parsed content fn new_code cls = none ∧
    fileAfter parsed content fn new_code cls = content := by
  have hfind : find_function_in_code parsed content fn cls = none := by
    cases parsed with
    | none => simpa [find_function_in_code] using ht
    | some t => simp [find_function_in_code, hs t rfl]
  constructor
  · simp [apply_function_change_pure, hfind]
  · simp [fileAfter, apply_function_change_pure, hfind]

theorem c6_absent_function_no_write_witness :
    findTargetNode (.module [.other 1 []]) "foo" none = none ∧
    find_function_regex "x = 1\n" "foo" none = none ∧
    apply_function_change_pure (some (.module [.other 1 []])) "x = 1\n" "foo"
      "def foo():\n    return 0\n" none = none ∧
    fileAfter (some (.module [.other 1 []])) "x = 1\n" "foo"
      "def foo():\n    return 0\n" none = "x = 1\n" := by
  refine ⟨rfl, by decide, ?_, ?_⟩
  · exact (c6_absent_function_no_write (some (.module [.other 1 []])) "x = 1\n" "foo"
      "def foo():\n    return 0\n" none (fun t ht => by cases ht; rfl) (by decide)).1
  · exact (c6_absent_function_no_write (some (.module [.other 1 []])) "x = 1\n" "foo"
      "def foo():\n    return 0\n" none (fun t ht => by cases ht; rfl) (by decide)).2

/-- The substring scanner agrees with list containment: `old in content`
holds exactly when `old`'s characters are an infix of `content`'s. -/
theorem containsLoop_iff (pat : List Char) :
    ∀ s : List Char, containsLoop pat s = true ↔ pat <:+: s := by
  intro s
  induction s with
  | nil => simp [containsLoop, List.isEmpty_iff, List.infix_nil]
  | cons c cs ih =>
      simp [containsLoop, Bool.or_eq_true, List.isPrefixOf_iff_prefix, ih,
        List.infix_cons_iff]

/-- **C8**.  The legacy snippet replacer fails (no write) exactly when
`old` does not occur in the document; when `old` occurs it rewrites the
document with `pyReplace`, which substitutes every non-overlapping
occurrence left-to-right — in particular both occurrences in
`"x = 1\nx = 1\n"` are replaced, not only the first. -/
theorem c8_snippet_replace_all :
    (∀ content old new : String,
        apply_change_pure content old new = none ↔
          ¬ (old.toList <:+: content.toList)) ∧
    (∀ content old new : String, old.toList <:+: content.toList →
        apply_change_pure content old new = some (pyReplace content old new)) ∧
    apply_change_pure "x = 1\nx = 1\n" "x = 1" "x = 2" = some "x = 2\nx = 2\n" := by
  have key : ∀ content old : String,
      pyContains content old = true ↔ old.toList <:+: content.toList :=
    fun content old => containsLoop_iff old.toList content.toList
  refine ⟨fun content old new => ?_, fun content old new h => ?_, by decide⟩
  · by_cases h : pyContains content old = true
    · simp only [apply_change_pure, if_pos h]
      constructor
      · intro hsome; exact absurd hsome (Option.some_ne_none _)
      · intro hni; exact absurd ((key content old).mp h) hni
    · simp only [apply_change_pure, if_neg h]
      constructor
      · intro _ hi; exact h ((key content old).mpr hi)
      · intro _; trivial
  · have hc : pyContains content old = true := (key content old).mpr h
    simp only [apply_change_pure, if_pos hc]

theorem c8_snippet_replace_all_witness :
    ("x = 1".toList <:+: "x = 1\nx = 1\n".toList) ∧
    apply_change_pure "x = 1\nx = 1\n" "x = 1" "x = 2" =
      some (pyReplace "x = 1\nx = 1\n" "x = 1" "x = 2") :=
  ⟨by decide, c8_snippet_replace_all.2.1 "x = 1\nx = 1\n" "x = 1" "x = 2" (by decide)⟩

/-- **C9**.  Every call the dispatch loop of `main` makes passes the
class-name argument as its default `None`, and the function name is the
entry of `changes_function_class_names` at the same index as the code,
passed verbatim. -/
theorem c9_dispatch_no_class_name (inst : Instruction) :
    (∀ call ∈ main_calls inst, call.2.2 = (none : Option String)) ∧
    (∀ i, i < inst.change.length →
      (main_calls inst).getD i ("", "", none) =
        (inst.changes_function_class_names.getD i "",
         inst.change.getD i "", none)) := by
  constructor
  · intro call hc
    unfold main_calls at hc
    obtain ⟨i, _, rfl⟩ := List.mem_map.mp hc
    rfl
  · intro i hi
    simp [main_calls, List.getD_eq_getElem?_getD, List.getElem?_map,
      List.getElem?_range, hi]

/-- A concrete instruction record. -/
def instEx : Instruction :=
  { project := "pandas", bug := "1", file := "a.py",
    change := ["def f():\n    return 1\n"],
    changes_function_class_names := ["f"] }

theorem c9_dispatch_no_class_name_witness :
    0 < instEx.change.length ∧
    (main_calls instEx).getD 0 ("", "", none) =
      (instEx.changes_function_class_names.getD 0 "",
       instEx.change.getD 0 "", none) :=
  ⟨by decide, (c9_dispatch_no_class_name instEx).2 0 (by decide)⟩

/-- The selection fold of `main`: folding the keep-last-match update over
the records equals finding the first match in the reversed list. -/
theorem foldl_select_eq (p : Instruction → Bool) :
    ∀ (l : List Instruction) (acc : Option Instruction),
      l.foldl (fun acc inst => if p inst then some inst else acc) acc =
        (l.reverse.find? p).or acc := by
  intro l
  induction l with
  | nil => intro acc; simp
  | cons x xs ih =>
      intro acc
      simp only [List.foldl_cons, List.reverse_cons, List.find?_append, ih]
      cases h : xs.reverse.find? p with
      | some y => simp [h, Option.or]
      | none =>
          by_cases hx : p x = true
          · simp [h, hx, Option.or, List.find?]
          · simp [h, hx, Option.or, List.find?]

/-- Record matching `"PANDAS"`, to exercise the case-insensitive project
comparison. -/
def instA : Instruction :=
  { project := "PANDAS", bug := "1", file := "first.py",
    change := ["a = 1\n"], changes_function_class_names := ["a"] }

def instB : Instruction :=
  { project := "pandas", bug := "1", file := "second.py",
    change := ["b = 2\n"], changes_function_class_names := ["b"] }

/-- **C10**.  The dispatcher's selection loop keeps overwriting the
selected record on every match (project compared case-insensitively, bug
exactly), so the record selected is the *last* matching one in list
order — formally, the first match of the reversed list; concretely, with
two matching records the second is selected, not the first. -/
theorem c10_last_match_selected :
    (∀ (instructions : List Instruction) (project bug : String),
        select_instruction instructions project bug =
          instructions.reverse.find? (fun inst => matchesInst inst project bug)) ∧
    matchesInst instA "pandas" "1" = true ∧
    matchesInst instB "pandas" "1" = true ∧
    instA ≠ instB ∧
    select_instruction [instA, instB] "pandas" "1" = some instB := by
  refine ⟨fun instructions project bug => ?_, by decide, by decide, by decide, by decide⟩
  unfold select_instruction
  rw [foldl_select_eq]
  cases h : instructions.reverse.find? (fun inst => matchesInst inst project bug) with
  | none => simp [Option.or]
  | some y => simp [Option.or]

end ReplaceCode

namespace ReplaceCode

theorem endScan_ge (w : Nat) : ∀ (L : List String) (i : Nat), i ≤ endScan w L i := by
  intro L
  induction L with
  | nil => intro i; exact Nat.le_refl i
  | cons l ls ih =>
      intro i
      by_cases h1 : (isBlankLine l || isCommentLine l) = true
      · calc i ≤ i + 1 := Nat.le_succ i
          _ ≤ endScan w ls (i + 1) := ih (i + 1)
          _ = endScan w (l :: ls) i := by simp [endScan, h1]
      · by_cases h2 : pyIndent l ≤ w
        · simp [endScan, h1, h2]
        · calc i ≤ i + 1 := Nat.le_succ i
            _ ≤ endScan w ls (i + 1) := ih (i + 1)
            _ = endScan w (l :: ls) i := by simp [endScan, h1, h2]

theorem endScan_le (w : Nat) :
    ∀ (L : List String) (i : Nat), endScan w L i ≤ i + L.length := by
  intro L
  induction L with
  | nil => intro i; simp [endScan]
  | cons l ls ih =>
      intro i
      by_cases h1 : (isBlankLine l || isCommentLine l) = true
      · have h := ih (i + 1)
        have hstep : endScan w (l :: ls) i = endScan w ls (i + 1) := by simp [endScan, h1]
        rw [hstep, List.length_cons]
        omega
      · by_cases h2 : pyIndent l ≤ w
        · have hstep : endScan w (l :: ls) i = i := by simp [endScan, h1, h2]
          rw [hstep]
          omega
        · have h := ih (i + 1)
          have hstep : endScan w (l :: ls) i = endScan w ls (i + 1) := by
            simp [endScan, h1, h2]
          rw [hstep, List.length_cons]
          omega

theorem endScan_no_stop (w : Nat) :
    ∀ (L : List String) (i j : Nat), i ≤ j → j < endScan w L i →
      isStopLine (L.getD (j - i) "") w = false := by
  intro L
  induction L with
  | nil =>
      intro i j hij hlt
      simp only [endScan] at hlt
      omega
  | cons l ls ih =>
      intro i j hij hlt
      by_cases h1 : (isBlankLine l || isCommentLine l) = true
      · have hstep : endScan w (l :: ls) i = endScan w ls (i + 1) := by simp [endScan, h1]
        rw [hstep] at hlt
        rcases Nat.eq_or_lt_of_le hij with heq | hgt
        · subst heq
          simp only [Nat.sub_self, List.getD_cons_zero]
          have h1' : isBlankLine l = true ∨ isCommentLine l = true := by
            simpa [Bool.or_eq_true] using h1
          rcases h1' with hb | hc
          · simp [isStopLine, hb]
          · simp [isStopLine, hc]
        · have hij1 : i + 1 ≤ j := hgt
          have hidx : j - i = (j - (i + 1)) + 1 := by omega
          rw [hidx, List.getD_cons_succ]
          exact ih (i + 1) j hij1 hlt
      · by_cases h2 : pyIndent l ≤ w
        · have hstep : endScan w (l :: ls) i = i := by simp [endScan, h1, h2]
          rw [hstep] at hlt
          omega
        · have hstep : endScan w (l :: ls) i = endScan w ls (i + 1) := by
            simp [endScan, h1, h2]
          rw [hstep] at hlt
          rcases Nat.eq_or_lt_of_le hij with heq | hgt
          · subst heq
            simp only [Nat.sub_self, List.getD_cons_zero]
            simp [isStopLine, h2]
          · have hij1 : i + 1 ≤ j := hgt
            have hidx : j - i = (j - (i + 1)) + 1 := by omega
            rw [hidx, List.getD_cons_succ]
            exact ih (i + 1) j hij1 hlt

end ReplaceCode

namespace ReplaceCode

theorem endScan_stop (w : Nat) :
    ∀ (L : List String) (i : Nat), endScan w L i < i + L.length →
      isStopLine (L.getD (endScan w L i - i) "") w = true := by
  intro L
  induction L with
  | nil => intro i h; simp [endScan] at h
  | cons l ls ih =>
      intro i h
      by_cases h1 : (isBlankLine l || isCommentLine l) = true
      · have hstep : endScan w (l :: ls) i = endScan w ls (i + 1) := by simp [endScan, h1]
        rw [hstep] at h ⊢
        have hge : i + 1 ≤ endScan w ls (i + 1) := endScan_ge w ls (i + 1)
        have h' : endScan w ls (i + 1) < (i + 1) + ls.length := by
          rw [List.length_cons] at h
          omega
        have hrec := ih (i + 1) h'
        have hidx : endScan w ls (i + 1) - i = (endScan w ls (i + 1) - (i + 1)) + 1 := by
          omega
        rw [hidx, List.getD_cons_succ]
        exact hrec
      · by_cases h2 : pyIndent l ≤ w
        · have hstep : endScan w (l :: ls) i = i := by simp [endScan, h1, h2]
          rw [hstep]
          simp only [Nat.sub_self, List.getD_cons_zero]
          have h1' : isBlankLine l = false ∧ isCommentLine l = false := by
            constructor
            · by_contra hb
              exact h1 (by simp [Bool.not_eq_false] at hb; simp [hb])
            · by_contra hc
              exact h1 (by simp [Bool.not_eq_false] at hc; simp [hc])
          simp [isStopLine, h1'.1, h1'.2, h2]
        · have hstep : endScan w (l :: ls) i = endScan w ls (i + 1) := by
            simp [endScan, h1, h2]
          rw [hstep] at h ⊢
          have hge : i + 1 ≤ endScan w ls (i + 1) := endScan_ge w ls (i + 1)
          have h' : endScan w ls (i + 1) < (i + 1) + ls.length := by
            rw [List.length_cons] at h
            omega
          have hrec := ih (i + 1) h'
          have hidx : endScan w ls (i + 1) - i = (endScan w ls (i + 1) - (i + 1)) + 1 := by
            omega
          rw [hidx, List.getD_cons_succ]
          exact hrec

theorem getD_drop (lines : List String) (n k : Nat) :
    (lines.drop n).getD k "" = lines.getD (n + k) "" := by
  simp [List.getD_eq_getElem?_getD, List.getElem?_drop]

/-- **C2**.  Characterization of the end-boundary computation: the result
`e` is at least `start_line + 1`; every line strictly before `e` in the
scanned range is blank, a comment, or more deeply indented than
`indent_width` (no stop line — so blank and comment lines are included in
the span regardless of their indentation); if `e` is inside the document it
is itself a stop line (the first one, excluded from the span); and if no
stop line exists the result is end-of-document.  In particular, on a
function followed by a blank line, a comment line and a sibling `def` at
the same indentation, the boundary is line 4: the blank and comment lines
are inside the span and the sibling is excluded. -/
theorem c2_boundary_resolution (lines : List String) (s w e : Nat)
    (he : e = findEndLine lines s w) :
    s + 1 ≤ e ∧
    e ≤ max (s + 1) lines.length ∧
    (∀ j, s + 1 ≤ j → j < e → isStopLine (lines.getD j "") w = false) ∧
    (e < lines.length → isStopLine (lines.getD e "") w = true) ∧
    ((∀ j, s + 1 ≤ j → j < lines.length → isStopLine (lines.getD j "") w = false) →
      e = max (s + 1) lines.length) ∧
    findEndLine ["def f():\n", "    return 1\n", "\n", "# note\n", "def g():\n"] 0 0 = 4 := by
  subst he
  unfold findEndLine
  have hL : (lines.drop (s + 1)).length = lines.length - (s + 1) :=
    List.length_drop _ _
  have hge := endScan_ge w (lines.drop (s + 1)) (s + 1)
  have hle := endScan_le w (lines.drop (s + 1)) (s + 1)
  refine ⟨hge, by omega, ?_, ?_, ?_, by decide⟩
  · intro j hj hlt
    have hns := endScan_no_stop w (lines.drop (s + 1)) (s + 1) j hj hlt
    have hidx : (s + 1) + (j - (s + 1)) = j := by omega
    rw [getD_drop, hidx] at hns
    exact hns
  · intro hlt
    have hbound : endScan w (lines.drop (s + 1)) (s + 1) <
        (s + 1) + (lines.drop (s + 1)).length := by omega
    have hst := endScan_stop w (lines.drop (s + 1)) (s + 1) hbound
    have hidx : (s + 1) + (endScan w (lines.drop (s + 1)) (s + 1) - (s + 1)) =
        endScan w (lines.drop (s + 1)) (s + 1) := by omega
    rw [getD_drop, hidx] at hst
    exact hst
  · intro hall
    by_cases hcase : lines.length ≤ s + 1
    · omega
    · by_contra hne
      have hlt : endScan w (lines.drop (s + 1)) (s + 1) < lines.length := by omega
      have hbound : endScan w (lines.drop (s + 1)) (s + 1) <
          (s + 1) + (lines.drop (s + 1)).length := by omega
      have hst := endScan_stop w (lines.drop (s + 1)) (s + 1) hbound
      have hidx : (s + 1) + (endScan w (lines.drop (s + 1)) (s + 1) - (s + 1)) =
          endScan w (lines.drop (s + 1)) (s + 1) := by omega
      rw [getD_drop, hidx] at hst
      have hfalse := hall _ hge hlt
      rw [hfalse] at hst
      exact Bool.false_ne_true hst

theorem c2_boundary_resolution_witness :
    (4 : Nat) = findEndLine ["def f():\n", "    return 1\n", "\n", "# note\n", "def g():\n"] 0 0 ∧
    0 + 1 ≤ 4 ∧
    (∀ j, 0 + 1 ≤ j → j < 4 →
      isStopLine ((["def f():\n", "    return 1\n", "\n", "# note\n", "def g():\n"].getD j "")) 0 = false) := by
  refine ⟨by decide, ?_, ?_⟩
  · exact (c2_boundary_resolution
      ["def f():\n", "    return 1\n", "\n", "# note\n", "def g():\n"] 0 0 4 (by decide)).1
  · exact (c2_boundary_resolution
      ["def f():\n", "    return 1\n", "\n", "# note\n", "def g():\n"] 0 0 4 (by decide)).2.2.1

end ReplaceCode

namespace ReplaceCode

theorem defScan_some (fn : String) (cind : Nat) :
    ∀ (L : List String) (i d r : Nat), defScan fn cind L i = some (d, r) →
      i ≤ d ∧ d - i < L.length ∧
      matchDefHeader (L.getD (d - i) "") fn = some r ∧ cind < r := by
  intro L
  induction L with
  | nil => intro i d r h; simp [defScan] at h
  | cons l ls ih =>
      intro i d r h
      cases hm : matchDefHeader l fn with
      | some v =>
          rw [defScan, hm] at h
          dsimp only at h
          by_cases hlt : cind < v
          · rw [if_pos hlt, Option.some.injEq, Prod.mk.injEq] at h
            obtain ⟨hd, hr⟩ := h
            have h0 : d - i = 0 := by omega
            refine ⟨by omega, by rw [List.length_cons]; omega, ?_, by omega⟩
            rw [h0, List.getD_cons_zero, hm, hr]
          · rw [if_neg hlt] at h
            have hrec := ih (i + 1) d r h
            obtain ⟨h1, h2, h3, h4⟩ := hrec
            refine ⟨by omega, ?_, ?_, h4⟩
            · rw [List.length_cons]; omega
            · have hidx : d - i = (d - (i + 1)) + 1 := by omega
              rw [hidx, List.getD_cons_succ]
              exact h3
      | none =>
          rw [defScan, hm] at h
          dsimp only at h
          have hrec := ih (i + 1) d r h
          obtain ⟨h1, h2, h3, h4⟩ := hrec
          refine ⟨by omega, ?_, ?_, h4⟩
          · rw [List.length_cons]; omega
          · have hidx : d - i = (d - (i + 1)) + 1 := by omega
            rw [hidx, List.getD_cons_succ]
            exact h3

theorem getD_take_drop (lines : List String) (n m k : Nat) (hk : k < n) :
    ((lines.drop m).take n).getD k "" = lines.getD (m + k) "" := by
  simp [List.getD_eq_getElem?_getD, List.getElem?_take, hk, List.getElem?_drop]

/-- **C5**.  Class-scoped location.  General part: whenever the textual
locator succeeds with an explicit class name, the located `def` line lies
strictly inside the window that starts right after the first matching
class-header line and ends at the class's own end boundary, its
indentation is strictly greater than the class indentation, and the
returned offsets are exactly the start of that line and the start of the
line at the function's end boundary — so a same-named method of any other
class (outside the window) can never be returned.  Concrete part: on two
classes each defining `m`, locating `m` in class `B` yields `B`'s span
`(52, 86, 4)` — and not `A`'s span `(9, 43, 4)` — through both the
structural and the textual locator. -/
theorem c5_class_scoping :
    (∀ (content fn cn : String) (s e w : Nat),
        find_function_regex content fn (some cn) = some (s, e, w) →
        ∃ ci cind d,
          scanLines (fun l => matchClassHeader l cn) (splitlinesKeepends content) 0 =
            some (ci, cind) ∧
          ci < d ∧
          d < findEndLine (splitlinesKeepends content) ci cind ∧
          matchDefHeader ((splitlinesKeepends content).getD d "") fn = some w ∧
          cind < w ∧
          s = sumLens (splitlinesKeepends content) d ∧
          e = sumLens (splitlinesKeepends content)
                (findEndLine (splitlinesKeepends content) d w)) ∧
    find_function_in_code (some tree5) doc5 "m" (some "B") = some (52, 86, 4) ∧
    find_function_regex doc5 "m" (some "B") = some (52, 86, 4) ∧
    find_function_in_code (some tree5) doc5 "m" (some "B") ≠ some (9, 43, 4) ∧
    find_function_regex doc5 "m" (some "B") ≠ some (9, 43, 4) := by
  refine ⟨?_, by decide, by decide, by decide, by decide⟩
  intro content fn cn s e w h
  simp only [find_function_regex] at h
  cases hc : scanLines (fun l => matchClassHeader l cn) (splitlinesKeepends content) 0 with
  | none => rw [hc] at h; simp at h
  | some p =>
      obtain ⟨ci, cind⟩ := p
      rw [hc] at h
      dsimp only at h
      cases hd : defScan fn cind
          (((splitlinesKeepends content).drop (ci + 1)).take
            (findEndLine (splitlinesKeepends content) ci cind - (ci + 1)))
          (ci + 1) with
      | none => rw [hd] at h; simp at h
      | some q =>
          obtain ⟨d, r⟩ := q
          rw [hd] at h
          dsimp only [find_function_end_regex] at h
          rw [Option.some.injEq, Prod.mk.injEq, Prod.mk.injEq] at h
          obtain ⟨hs, he, hw⟩ := h
          subst hw
          have hrec := defScan_some fn cind _ (ci + 1) d r hd
          obtain ⟨h1, h2, h3, h4⟩ := hrec
          have hlen : (((splitlinesKeepends content).drop (ci + 1)).take
              (findEndLine (splitlinesKeepends content) ci cind - (ci + 1))).length ≤
              findEndLine (splitlinesKeepends content) ci cind - (ci + 1) := by
            rw [List.length_take]
            omega
          have hwin : d < findEndLine (splitlinesKeepends content) ci cind := by omega
          have hk : d - (ci + 1) <
              findEndLine (splitlinesKeepends content) ci cind - (ci + 1) := by omega
          rw [getD_take_drop _ _ _ _ hk] at h3
          have hidx : (ci + 1) + (d - (ci + 1)) = d := by omega
          rw [hidx] at h3
          exact ⟨ci, cind, d, rfl, by omega, hwin, h3, h4, hs.symm, he.symm⟩

theorem c5_class_scoping_witness :
    find_function_regex doc5 "m" (some "B") = some (52, 86, 4) ∧
    (∃ ci cind d,
      scanLines (fun l => matchClassHeader l "B") (splitlinesKeepends doc5) 0 =
        some (ci, cind) ∧
      ci < d ∧
      d < findEndLine (splitlinesKeepends doc5) ci cind ∧
      matchDefHeader ((splitlinesKeepends doc5).getD d "") "m" = some 4 ∧
      cind < 4 ∧
      52 = sumLens (splitlinesKeepends doc5) d ∧
      86 = sumLens (splitlinesKeepends doc5) (findEndLine (splitlinesKeepends doc5) d 4)) :=
  ⟨by decide, c5_class_scoping.1 doc5 "m" "B" 52 86 4 (by decide)⟩

end ReplaceCode

namespace ReplaceCode

theorem c10_last_match_selected_witness :
    select_instruction [instA, instB] "Pandas" "1" =
      ([instA, instB].reverse.find? (fun inst => matchesInst inst "Pandas" "1")) :=
  c10_last_match_selected.1 [instA, instB] "Pandas" "1"

end ReplaceCode
